import Mathlib

/-!
Verification of the `dlaudio` repository: two exploratory notebooks,
`audio_graph.ipynb` (K-nearest-neighbor similarity graph and its symmetric
normalized Laplacian) and a dictionary-learning notebook (alternating
convex minimization compared against a reference MATLAB implementation).

The Python code is shallowly embedded: numpy arrays become functions
`Fin n → Fin m → α` (Mathlib matrices), sparse COO construction becomes a
list of (row, col, value) triples summed per position, the custom
`indices` iterator class becomes an explicit state machine with a fuel-
bounded driver, and the notebook's try/except-guarded file removal
becomes an `Except`-valued step over an abstract file system.
-/

namespace Dlaudio

open Matrix

/-! ### The `indices` iterator class (graph notebook)

```python
class indices(object):
    def __init__(self, N, K):
        self.N = N; self.K = K; self.n = 0; self.k = 0
    def __len__(self):
        return self.N * self.K
    def next(self):
        self.k += 1
        if self.k > self.K:
            self.k = 1
            self.n += 1
            if self.n >= self.N:
                self.k = 0
                self.n = 0
                raise StopIteration()
        return self.n
```
-/

/-- The mutable state of an `indices` iterator object: the constructor
arguments `N`, `K` and the cursor fields `n`, `k`. -/
structure IndicesState where
  N : ℕ
  K : ℕ
  n : ℕ
  k : ℕ
  deriving DecidableEq, Repr

/-- `indices.__init__`: fresh iterator state. -/
def indicesInit (N K : ℕ) : IndicesState := ⟨N, K, 0, 0⟩

/-- `indices.__len__`: the iterator reports `N * K` items. -/
def indicesLen (s : IndicesState) : ℕ := s.N * s.K

/-- `indices.next`: one step of the iterator.  Returns `(some v, s')` when
the Python method returns value `v` leaving state `s'`, and `(none, s')`
when it raises `StopIteration` leaving state `s'`. -/
def indicesNext (s : IndicesState) : Option ℕ × IndicesState :=
  let k := s.k + 1
  if k > s.K then
    let k := 1
    let n := s.n + 1
    if n ≥ s.N then
      (none, { s with n := 0, k := 0 })
    else
      (some n, { s with n := n, k := k })
  else
    (some s.n, { s with k := k })

/-- Drive an iterator to exhaustion, fuel-bounded: returns the list of
yielded values and, if `StopIteration` was reached within the fuel, the
state the iterator was left in (`some s`); `none` means the fuel ran out
first. This is `list(indices(N, K))` together with the post-exhaustion
state. -/
def runIter : IndicesState → ℕ → List ℕ × Option IndicesState
  | _, 0 => ([], none)
  | s, fuel + 1 =>
    match indicesNext s with
    | (none, s') => ([], some s')
    | (some v, s') =>
      let r := runIter s' fuel
      (v :: r.1, r.2)

/-- The sequence the iterator is supposed to produce: each row index
`n ∈ 0..N-1` repeated `K` times, in increasing order of `n`. -/
def expectedIndices (N K : ℕ) : List ℕ :=
  (List.range N).flatMap fun n => List.replicate K n

/-! ### Sparse COO weight-matrix construction (graph notebook)

```python
i = list(indices(X.shape[0], K))
j = idx.flat
v = w.flat
W = scipy.sparse.coo_matrix((v, (i,j))).tocsr()
```
-/

/-- numpy row-major flattening (`arr.flat`) of an `N × K` array. -/
def flatRM {α : Type*} (N K : ℕ) (arr : Fin N → Fin K → α) : List α :=
  (List.finRange N).flatMap fun a => (List.finRange K).map fun k => arr a k

/-- Entry `(a, b)` of `scipy.sparse.coo_matrix((v, (i, j)))` after `tocsr()`:
the sum of every value whose coordinate pair is `(a, b)` (COO duplicate
entries are summed by the CSR conversion). -/
def cooEntry {α : Type*} [AddCommMonoid α]
    (i j : List ℕ) (v : List α) (a b : ℕ) : α :=
  (((i.zip (j.zip v)).filter fun t => t.1 == a && t.2.1 == b).map
    fun t => t.2.2).sum

/-- The notebook's sparse weight matrix `W`: row coordinates from the
`indices` iterator, column coordinates `idx.flat`, values `w.flat`. -/
def buildW {α : Type*} [AddCommMonoid α] (N K : ℕ)
    (idx : Fin N → Fin K → Fin N) (w : Fin N → Fin K → α) :
    Matrix (Fin N) (Fin N) α :=
  fun a b =>
    cooEntry ((runIter (indicesInit N K) (N * K + 1)).1)
      (flatRM N K fun n k => (idx n k : ℕ)) (flatRM N K w) (↑a) (↑b)

/-! ### Symmetrization of the weight matrix (graph notebook)

```python
bigger = W.T > W
W = W - W.multiply(bigger) + W.T.multiply(bigger)
```
-/

/-- Entry `(i, j)` of the Boolean mask `bigger = W.T > W`. -/
def biggerMask {α : Type*} [LinearOrder α] {N : ℕ}
    (W : Matrix (Fin N) (Fin N) α) (i j : Fin N) : Bool :=
  decide (W j i > W i j)

/-- The symmetrization `W - W.multiply(bigger) + W.T.multiply(bigger)`:
`.multiply` is the elementwise product, a Boolean mask counting as 0/1. -/
def symmetrize {α : Type*} [LinearOrderedRing α] (N : ℕ)
    (W : Matrix (Fin N) (Fin N) α) : Matrix (Fin N) (Fin N) α :=
  fun i j =>
    W i j - W i j * (if biggerMask W i j then 1 else 0)
      + W j i * (if biggerMask W i j then 1 else 0)

/-! ### Shapes of the KNN result and its sliced form (graph notebook)

```python
assert knnidx.shape == (Ngenres * Nclips * Nframes * 2, K+1)
assert knnidx.shape == knndist.shape
idx, dist = knnidx[:,1:], knndist[:,1:]
assert idx.shape == (X.shape[0], K)
assert idx.shape == dist.shape
```
-/

/-- Shape of `arr[:, 1:]` for a 2-D array of shape `s`. -/
def dropFirstColShape (s : ℕ × ℕ) : ℕ × ℕ := (s.1, s.2 - 1)

/-! ### Guarded removal of the output file (graph notebook)

```python
try:
    os.remove(filename)
except OSError:
    pass
with h5py.File(filename, 'w') as graph:
    ...
```
-/

/-- Exceptions the notebooks can raise. -/
inductive PyError where
  | valueError
  | osError
  deriving DecidableEq, Repr

/-- `os.remove(p)` over an abstract file system (the list of existing
paths): removes `p`, raising `OSError` when `p` does not exist. -/
def osRemove (fs : List String) (p : String) : Except PyError (List String) :=
  if p ∈ fs then .ok (fs.erase p) else .error .osError

/-- The try/except-guarded removal: the `OSError` is caught and ignored. -/
def removeGuarded (fs : List String) (p : String) : List String :=
  match osRemove fs p with
  | .ok fs' => fs'
  | .error _ => fs

/-- The file-system effect of the output cell: guarded removal, then
`h5py.File(filename, 'w')` creates the file. -/
def saveCellFS (fs : List String) (p : String) : Except PyError (List String) :=
  let fs' := removeGuarded fs p
  .ok (p :: fs')

/-! ### HDF5 output of the graph notebook

```python
graph.attrs['K'] = K
graph.attrs['dm'] = dm
graph.attrs['Csigma'] = Csigma
for mat in ('W', 'L'):
    m = globals()[mat]
    for par in ('data', 'indices', 'indptr', 'shape'):
        arr = np.array(getattr(m, par))
        graph.create_dataset(mat+'_'+par, data=arr)
```
-/

/-- The four CSR component arrays of a `scipy.sparse.csr_matrix`. -/
structure CSRData (α : Type) where
  data : List α
  indices : List ℕ
  indptr : List ℕ
  shape : List ℕ
  deriving DecidableEq

/-- A dataset written to the HDF5 file: a value array or an index array. -/
inductive H5Value (α : Type) where
  | values (xs : List α)
  | indexes (xs : List ℕ)
  deriving DecidableEq

/-- An HDF5 attribute value: the integer `K`, the string `dm`, or the
number `Csigma`. -/
inductive AttrVal (α : Type) where
  | int (n : ℕ)
  | str (s : String)
  | num (x : α)
  deriving DecidableEq

/-- `getattr(m, par)` for the four CSR components. -/
def getattrCSR {α : Type} (m : CSRData α) (par : String) : H5Value α :=
  if par = "data" then .values m.data
  else if par = "indices" then .indexes m.indices
  else if par = "indptr" then .indexes m.indptr
  else .indexes m.shape

/-- The component names the output cell iterates over. -/
def csrParts : List String := ["data", "indices", "indptr", "shape"]

/-- The output cell: HDF5 attributes `K`, `dm`, `Csigma`, then one
dataset `<matrix>_<component>` for each matrix in `('W', 'L')` and each
component in `('data', 'indices', 'indptr', 'shape')`. -/
def saveGraph {α : Type} (W L : CSRData α) (K : ℕ) (dm : String)
    (Csigma : α) :
    List (String × AttrVal α) × List (String × H5Value α) :=
  ([("K", .int K), ("dm", .str dm), ("Csigma", .num Csigma)],
   (["W", "L"].flatMap fun mat =>
     csrParts.map fun par =>
       (mat ++ "_" ++ par, getattrCSR (if mat = "W" then W else L) par)))

/-! ### Distance-metric conversion (graph notebook)

```python
if dm is 'euclidean':
    dist = np.sqrt(dist)
elif dm is 'cosine':
    dist = dist / 2
else:
    raise ValueError
```
(`dm` is set from a string literal in the same module, so the identity
test `is` coincides with string equality here.)
-/

/-- The distance-conversion cell: square root for `'euclidean'`, halving
for `'cosine'`, `ValueError` for every other metric name. -/
noncomputable def convertDist (N K : ℕ) (dm : String)
    (dist : Matrix (Fin N) (Fin K) ℝ) :
    Except PyError (Matrix (Fin N) (Fin K) ℝ) :=
  if dm = "euclidean" then .ok fun i k => Real.sqrt (dist i k)
  else if dm = "cosine" then .ok fun i k => dist i k / 2
  else .error .valueError

/-! ### Graph Laplacian (graph notebook)

```python
d = 1 / np.sqrt(W.sum(axis=0))
D = scipy.sparse.diags(d.A.squeeze(), 0)
I = scipy.sparse.identity(Nvertices)
L = I - D * W * D
```
-/

/-- `W.sum(axis=0)`: the column sums of `W` (the degree of vertex `j`). -/
def colSum (N : ℕ) (W : Matrix (Fin N) (Fin N) ℝ) (j : Fin N) : ℝ :=
  ∑ i, W i j

/-- `d = 1 / np.sqrt(W.sum(axis=0))`. -/
noncomputable def invSqrtDeg (N : ℕ) (W : Matrix (Fin N) (Fin N) ℝ)
    (j : Fin N) : ℝ :=
  1 / Real.sqrt (colSum N W j)

/-- `D = scipy.sparse.diags(d, 0)`. -/
noncomputable def degInvSqrtMat (N : ℕ) (W : Matrix (Fin N) (Fin N) ℝ) :
    Matrix (Fin N) (Fin N) ℝ :=
  Matrix.diagonal (invSqrtDeg N W)

/-- `L = I - D * W * D`, the matrix the notebook computes. -/
noncomputable def laplacianL (N : ℕ) (W : Matrix (Fin N) (Fin N) ℝ) :
    Matrix (Fin N) (Fin N) ℝ :=
  1 - degInvSqrtMat N W * W * degInvSqrtMat N W

/-- The symmetric normalized graph Laplacian as the spec words it:
`I - D^{-1/2} W D^{-1/2}` entrywise, with the degree of vertex `i` the
`i`-th column sum of `W`. -/
noncomputable def specNormalizedLaplacian (N : ℕ)
    (W : Matrix (Fin N) (Fin N) ℝ) : Matrix (Fin N) (Fin N) ℝ :=
  fun i j =>
    (if i = j then 1 else 0) -
      W i j / (Real.sqrt (colSum N W i) * Real.sqrt (colSum N W j))

/-! ### Dictionary-learning notebook: objectives and the alternating loop

```python
l_d = 10
g_z = functions.norm_l1()
f_z = functions.norm_l2(lambda_=l_d/2., A=D, y=X, tight=False)
...
```
The pyunlocbox evaluations are embedded from the library's documented
semantics: `norm_l1().eval(Z)` is the sum of absolute values and
`norm_l2(lambda_, A, y).eval(x)` is `lambda_ * ||A x - y||_F^2`.
-/

/-- The hyper-parameter `l_d = 10`. -/
def l_d {α : Type} [DivisionRing α] : α := 10

/-- pyunlocbox `functions.norm_l1().eval`: the sum of absolute values. -/
def norm_l1_eval {m N : ℕ} {α : Type} [LinearOrderedField α]
    (Z : Matrix (Fin m) (Fin N) α) : α :=
  ∑ i, ∑ j, |Z i j|

/-- pyunlocbox `functions.norm_l2(lambda_, A, y).eval(x)`:
`lambda_ * ||A x - y||_F^2`. -/
def norm_l2_eval {p q r : ℕ} {α : Type} [LinearOrderedField α] (lam : α)
    (A : Matrix (Fin p) (Fin q) α) (y : Matrix (Fin p) (Fin r) α)
    (x : Matrix (Fin q) (Fin r) α) : α :=
  lam * ∑ i, ∑ j, ((A * x - y) i j) ^ 2

/-- The convergence cell's evaluation of the notebook's own solution:
`g_z.eval(Z)`, `f_d.eval(D.T)` where `f_d = norm_l2(lambda_=l_d/2.,
A=Z.T, y=X.T)`, and their sum `g_z(Z) + f_d(D,Z)`. -/
def ownSolutionEval {n m N : ℕ} {α : Type} [LinearOrderedField α]
    (Z : Matrix (Fin m) (Fin N) α) (D : Matrix (Fin n) (Fin m) α)
    (X : Matrix (Fin n) (Fin N) α) : α × α × α :=
  (norm_l1_eval Z,
   norm_l2_eval (l_d / 2) Zᵀ Xᵀ Dᵀ,
   norm_l1_eval Z + norm_l2_eval (l_d / 2) Zᵀ Xᵀ Dᵀ)

/-- The "Solution from Xavier" cell's evaluation of the reference
solution `(Z, D)` loaded from `data/xavier_ZD.mat`: `g_z.eval(Zxavier)`,
`f_d.eval(Dxavier.T)` where `f_d = norm_l2(lambda_=l_d/2., A=Zxavier.T,
y=X.T)`, and their sum. -/
def xavierSolutionEval {n m N : ℕ} {α : Type} [LinearOrderedField α]
    (Zxavier : Matrix (Fin m) (Fin N) α) (Dxavier : Matrix (Fin n) (Fin m) α)
    (X : Matrix (Fin n) (Fin N) α) : α × α × α :=
  (norm_l1_eval Zxavier,
   norm_l2_eval (l_d / 2) Zxavierᵀ Xᵀ Dxavierᵀ,
   norm_l1_eval Zxavier + norm_l2_eval (l_d / 2) Zxavierᵀ Xᵀ Dxavierᵀ)

/-- `N_outer = 15`. -/
def N_outer : ℕ := 15

/-- `np.linalg.norm` of a matrix with default `ord`: the Frobenius norm. -/
noncomputable def npNorm {p q : ℕ} (A : Matrix (Fin p) (Fin q) ℝ) : ℝ :=
  Real.sqrt (∑ i, ∑ j, (A i j) ^ 2)

/-- pyunlocbox `functions.proj_b2(epsilon=1)._prox`: projection onto the
unit L2 ball, the norm being `np.linalg.norm` of the whole array. -/
noncomputable def projB2 {p q : ℕ} (x : Matrix (Fin p) (Fin q) ℝ) :
    Matrix (Fin p) (Fin q) ℝ :=
  if npNorm x ≤ 1 then x else (1 / npNorm x) • x

/-- The notebook's `g_d._prox = lambda Dt, _: g_d1._prox(Dt.T, 0).T`:
the ball projection applied through a transpose, so that the constraint
acts on the dictionary `D = Dt.T`. -/
noncomputable def gdProx {m n : ℕ} (Dt : Matrix (Fin m) (Fin n) ℝ) :
    Matrix (Fin m) (Fin n) ℝ :=
  (projB2 Dtᵀ)ᵀ

/-- `np.sqrt(np.sum(D*D, axis=0))`: the column (atom) L2 norms of `D`,
the quantity the notebook checks against the constraint `d <= 1`. -/
noncomputable def colL2Norm {p q : ℕ} (D : Matrix (Fin p) (Fin q) ℝ)
    (j : Fin q) : ℝ :=
  Real.sqrt (∑ i, (D i j) ^ 2)

/-- One outer iteration of the alternating minimization.  The two inner
forward-backward (FISTA) solves are performed by the external pyunlocbox
solver; they are abstracted as `solveZ` and `solveD`, each receiving the
step size the notebook passes (`step=1./L`), the data `A`, `y` of its
quadratic term, and its starting point. -/
noncomputable def outerStep {n m N : ℕ}
    (solveZ : ℝ → Matrix (Fin n) (Fin m) ℝ → Matrix (Fin n) (Fin N) ℝ →
      Matrix (Fin m) (Fin N) ℝ → Matrix (Fin m) (Fin N) ℝ)
    (solveD : ℝ → Matrix (Fin N) (Fin m) ℝ → Matrix (Fin N) (Fin n) ℝ →
      Matrix (Fin m) (Fin n) ℝ → Matrix (Fin m) (Fin n) ℝ)
    (X : Matrix (Fin n) (Fin N) ℝ)
    (p : Matrix (Fin m) (Fin N) ℝ × Matrix (Fin n) (Fin m) ℝ) :
    Matrix (Fin m) (Fin N) ℝ × Matrix (Fin n) (Fin m) ℝ :=
  let Z := p.1
  let D := p.2
  let L1 := l_d * npNorm (Dᵀ * D)
  let Z' := solveZ (1 / L1) D X Z
  let L2 := l_d * npNorm (Z' * Z'ᵀ)
  let D' := (solveD (1 / L2) Z'ᵀ Xᵀ Dᵀ)ᵀ
  (Z', D')

/-- The algorithm cell: `for k in np.arange(N_outer)` applying one
alternation per iteration, starting from `(Zinit, Dinit)`. -/
noncomputable def dictionaryLearning {n m N : ℕ}
    (solveZ : ℝ → Matrix (Fin n) (Fin m) ℝ → Matrix (Fin n) (Fin N) ℝ →
      Matrix (Fin m) (Fin N) ℝ → Matrix (Fin m) (Fin N) ℝ)
    (solveD : ℝ → Matrix (Fin N) (Fin m) ℝ → Matrix (Fin N) (Fin n) ℝ →
      Matrix (Fin m) (Fin n) ℝ → Matrix (Fin m) (Fin n) ℝ)
    (X : Matrix (Fin n) (Fin N) ℝ)
    (Zinit : Matrix (Fin m) (Fin N) ℝ) (Dinit : Matrix (Fin n) (Fin m) ℝ) :
    Matrix (Fin m) (Fin N) ℝ × Matrix (Fin n) (Fin m) ℝ :=
  (List.range N_outer).foldl (fun p _ => outerStep solveZ solveD X p)
    (Zinit, Dinit)

lemma runIter_succ_some {s s' : IndicesState} {v : ℕ}
    (h : indicesNext s = (some v, s')) (fuel : ℕ) :
    runIter s (fuel + 1) = (v :: (runIter s' fuel).1, (runIter s' fuel).2) := by
  simp [runIter, h]

lemma runIter_succ_none {s s' : IndicesState}
    (h : indicesNext s = (none, s')) (fuel : ℕ) :
    runIter s (fuel + 1) = ([], some s') := by
  simp [runIter, h]

lemma indicesNext_yield {N K n j : ℕ} (h : j < K) :
    indicesNext ⟨N, K, n, j⟩ = (some n, ⟨N, K, n, j + 1⟩) := by
  simp [indicesNext, Nat.not_lt.mpr h]

lemma indicesNext_wrap {N K n : ℕ} (h : n + 1 < N) :
    indicesNext ⟨N, K, n, K⟩ = (some (n + 1), ⟨N, K, n + 1, 1⟩) := by
  simp [indicesNext, Nat.lt_irrefl, Nat.not_le.mpr h]

lemma indicesNext_stop {N K n : ℕ} (h : N ≤ n + 1) :
    indicesNext ⟨N, K, n, K⟩ = (none, ⟨N, K, 0, 0⟩) := by
  simp [indicesNext, Nat.lt_irrefl, h]

/-- Invariant of the iterator run: from state `(n, j)` with `n < N`,
`j ≤ K`, and enough fuel, the remaining yields are `n` repeated `K - j`
times followed by every later row repeated `K` times, and the iterator is
left in the reset state. -/
lemma runIter_from (N K : ℕ) (hK : 1 ≤ K) :
    ∀ (fuel n j : ℕ), n < N → j ≤ K →
      (K - j) + (N - 1 - n) * K + 1 ≤ fuel →
      runIter ⟨N, K, n, j⟩ fuel =
        (List.replicate (K - j) n ++
          (List.range' (n + 1) (N - 1 - n)).flatMap (fun i => List.replicate K i),
         some (indicesInit N K)) := by
  intro fuel
  induction fuel with
  | zero => intro n j _ _ hfuel; omega
  | succ f ih =>
    intro n j hn hj hfuel
    rcases Nat.lt_or_ge j K with hjK | hjK
    · -- j < K : yield n, move to (n, j+1)
      rw [runIter_succ_some (indicesNext_yield hjK) f]
      rw [ih n (j + 1) hn hjK (by omega)]
      have hrep : K - j = (K - (j + 1)) + 1 := by omega
      simp [hrep, List.replicate_succ]
    · -- j = K : advance the row
      have hjeq : j = K := le_antisymm hj hjK
      rw [hjeq]
      rcases Nat.lt_or_ge (n + 1) N with hnN | hnN
      · -- n+1 < N : yield n+1, move to (n+1, 1)
        have hmul : (N - 1 - n) * K = (N - 1 - (n + 1)) * K + K := by
          have h1 : N - 1 - n = (N - 1 - (n + 1)) + 1 := by omega
          rw [h1]; ring
        rw [runIter_succ_some (indicesNext_wrap hnN) f]
        rw [ih (n + 1) 1 hnN hK (by omega)]
        have hrange : N - 1 - n = (N - 1 - (n + 1)) + 1 := by omega
        rw [hrange, List.range'_succ]
        simp [List.flatMap_cons, List.replicate_succ, Nat.sub_self]
        rw [← List.cons_append, ← List.replicate_succ]
        have h2 : K - 1 + 1 = K := by omega
        rw [h2]
      · -- n+1 ≥ N : StopIteration, reset state
        rw [runIter_succ_none (indicesNext_stop hnN) f]
        have h1 : K - K = 0 := Nat.sub_self K
        have h2 : N - 1 - n = 0 := by omega
        simp [h1, h2, indicesInit]

/-- Running a fresh `indices(N, K)` iterator to exhaustion yields the
expected sequence and resets the state. -/
lemma runIter_init_eq (N K fuel : ℕ) (hN : 1 ≤ N) (hK : 1 ≤ K)
    (hfuel : N * K + 1 ≤ fuel) :
    runIter (indicesInit N K) fuel =
      (expectedIndices N K, some (indicesInit N K)) := by
  have hNK : (N - 1 - 0) * K + K = N * K := by
    have h1 : N - 1 - 0 = N - 1 := by omega
    rw [h1]
    have h2 : (N - 1) * K + K = ((N - 1) + 1) * K := by ring
    rw [h2]
    congr 1
    omega
  have h := runIter_from N K hK fuel 0 0 hN (by omega) (by omega)
  simp only [indicesInit] at h ⊢
  rw [h]
  congr 1
  rw [expectedIndices, List.range_eq_range']
  have hsplit : List.range' 0 N = 0 :: List.range' 1 (N - 1) := by
    rw [← Nat.succ_pred_eq_of_pos (by omega : 0 < N), List.range'_succ]
    simp
  rw [hsplit, List.flatMap_cons]
  simp

/-- The expected sequence has length `N * K`. -/
lemma expectedIndices_length (N K : ℕ) :
    (expectedIndices N K).length = N * K := by
  rw [expectedIndices, List.length_flatMap]
  simp [Function.comp_def, mul_comm]

lemma zip_flatMap {ι β γ : Type*} (L : List ι) (f : ι → List β) (g : ι → List γ)
    (h : ∀ x, (f x).length = (g x).length) :
    (L.flatMap f).zip (L.flatMap g) = L.flatMap fun x => (f x).zip (g x) := by
  induction L with
  | nil => rfl
  | cons x L ih =>
    rw [List.flatMap_cons, List.flatMap_cons, List.flatMap_cons,
      List.zip_append (h x), ih]

lemma zip_replicate_len {α β : Type*} (x : α) (l : List β) (n : ℕ)
    (h : l.length = n) :
    (List.replicate n x).zip l = l.map fun y => (x, y) := by
  subst h
  induction l with
  | nil => rfl
  | cons y l ih => simp [List.replicate_succ, ih]

lemma filter_flatMap {ι β : Type*} (L : List ι) (f : ι → List β) (p : β → Bool) :
    (L.flatMap f).filter p = L.flatMap fun x => (f x).filter p := by
  induction L with
  | nil => rfl
  | cons x L ih => rw [List.flatMap_cons, List.flatMap_cons, List.filter_append, ih]

lemma sum_flatMap {ι β : Type*} [AddCommMonoid β] (L : List ι) (f : ι → List β) :
    (L.flatMap f).sum = (L.map fun x => (f x).sum).sum := by
  induction L with
  | nil => rfl
  | cons x L ih => rw [List.flatMap_cons, List.sum_append, ih, List.map_cons, List.sum_cons]

lemma sum_map_filter {α β : Type*} [AddCommMonoid β] (l : List α)
    (p : α → Bool) (f : α → β) :
    ((l.filter p).map f).sum = (l.map fun x => if p x then f x else 0).sum := by
  induction l with
  | nil => rfl
  | cons x l ih =>
    by_cases h : p x <;> simp [List.filter_cons, h, ih]

/-- Evaluation of the COO-constructed weight matrix: entry `(a, b)` is the
sum of the weights of the neighbors `k` of `a` for which `idx a k = b`. -/
lemma buildW_apply {α : Type*} [AddCommMonoid α] (N K : ℕ)
    (hN : 1 ≤ N) (hK : 1 ≤ K)
    (idx : Fin N → Fin K → Fin N) (w : Fin N → Fin K → α) (a b : Fin N) :
    buildW N K idx w a b = ∑ k : Fin K, if idx a k = b then w a k else 0 := by
  have hrun : (runIter (indicesInit N K) (N * K + 1)).1 = expectedIndices N K := by
    rw [runIter_init_eq N K (N * K + 1) hN hK le_rfl]
  rw [buildW, cooEntry, hrun]
  have hexp : expectedIndices N K
      = (List.finRange N).flatMap fun n => List.replicate K ((n : ℕ)) := by
    rw [expectedIndices, ← List.map_coe_finRange N, List.flatMap_map]
  -- inner zip of the column/value flattenings
  have hjv : (flatRM N K fun n k => ((idx n k : ℕ))).zip (flatRM N K w)
      = (List.finRange N).flatMap fun n =>
          (List.finRange K).map fun k => (((idx n k : ℕ)), w n k) := by
    rw [flatRM, flatRM, zip_flatMap _ _ _ (fun x => by simp)]
    refine List.flatMap_congr ?_ -- may not exist; fallback below
    intro n _
    rw [List.zip_map']
  -- outer zip with the iterator rows
  rw [hexp, hjv, zip_flatMap _ _ _ (fun x => by simp)]
  have hblock : ∀ n : Fin N,
      (List.replicate K ((n : ℕ))).zip
        ((List.finRange K).map fun k => (((idx n k : ℕ)), w n k))
      = (List.finRange K).map fun k => (((n : ℕ)), ((idx n k : ℕ)), w n k) := by
    intro n
    rw [zip_replicate_len _ _ K (by simp), List.map_map]
    rfl
  simp only [hblock]
  rw [filter_flatMap, List.map_flatMap, sum_flatMap]
  have hinner : ∀ n : Fin N,
      ((List.map (fun t : ℕ × ℕ × α => t.2.2)
        (((List.finRange K).map fun k => (((n : ℕ)), ((idx n k : ℕ)), w n k)).filter
          fun t => t.1 == (a : ℕ) && t.2.1 == (b : ℕ)))).sum
      = ∑ k : Fin K,
          if ((n : ℕ) == (a : ℕ)) && ((idx n k : ℕ) == (b : ℕ))
          then w n k else 0 := by
    intro n
    rw [List.filter_map, List.map_map, sum_map_filter, Fin.sum_univ_def]
    rfl
  simp only [Function.comp_def, hinner]
  rw [Fin.sum_univ_def (fun n : Fin N => ∑ k : Fin K,
    if ((n : ℕ) == (a : ℕ)) && ((idx n k : ℕ) == (b : ℕ)) then w n k else 0) |>.symm]
  have hsummand : ∀ (n : Fin N) (k : Fin K),
      (if ((n : ℕ) == (a : ℕ)) && ((idx n k : ℕ) == (b : ℕ)) then w n k else 0)
      = if n = a then (if idx n k = b then w n k else 0) else 0 := by
    intro n k
    by_cases h1 : n = a
    · subst h1
      by_cases h2 : idx n k = b
      · simp [h2]
      · have hb : ((idx n k : ℕ) == (b : ℕ)) = false := by
          simp only [beq_eq_false_iff_ne, ne_eq, Fin.val_eq_val]
          exact h2
        simp [hb, h2]
    · have ha : ((n : ℕ) == (a : ℕ)) = false := by
        simp only [beq_eq_false_iff_ne, ne_eq, Fin.val_eq_val]
        exact h1
      simp [ha, h1]
  calc (∑ n : Fin N, ∑ k : Fin K,
        if ((n : ℕ) == (a : ℕ)) && ((idx n k : ℕ) == (b : ℕ)) then w n k else 0)
      = ∑ n : Fin N, if n = a
          then (∑ k : Fin K, if idx n k = b then w n k else 0) else 0 := by
        refine Finset.sum_congr rfl fun n _ => ?_
        by_cases h1 : n = a
        · subst h1
          simp only [if_pos rfl]
          exact Finset.sum_congr rfl fun k _ => by rw [hsummand]; simp
        · simp only [if_neg h1]
          refine Finset.sum_eq_zero fun k _ => ?_
          rw [hsummand, if_neg h1]
    _ = ∑ k : Fin K, if idx a k = b then w a k else 0 := by
        rw [Finset.sum_ite_eq' Finset.univ a
          (fun n => ∑ k : Fin K, if idx n k = b then w n k else 0)]
        simp

lemma foldl_range_const {β : Type*} (f : β → β) (c : ℕ) (x : β) :
    (List.range c).foldl (fun p _ => f p) x = f^[c] x := by
  induction c with
  | zero => rfl
  | succ c ih =>
    rw [List.range_succ, List.foldl_append, ih, List.foldl_cons,
      List.foldl_nil, Function.iterate_succ_apply']

lemma colL2Norm_le_npNorm {p q : ℕ} (A : Matrix (Fin p) (Fin q) ℝ)
    (j : Fin q) : colL2Norm A j ≤ npNorm A := by
  rw [colL2Norm, npNorm]
  apply Real.sqrt_le_sqrt
  apply Finset.sum_le_sum
  intro i _
  exact Finset.single_le_sum (fun j' _ => sq_nonneg (A i j'))
    (Finset.mem_univ j)

lemma npNorm_smul {p q : ℕ} (c : ℝ) (hc : 0 ≤ c)
    (A : Matrix (Fin p) (Fin q) ℝ) : npNorm (c • A) = c * npNorm A := by
  rw [npNorm, npNorm]
  have h : ∑ i, ∑ j, ((c • A) i j) ^ 2 = c ^ 2 * ∑ i, ∑ j, (A i j) ^ 2 := by
    simp only [Matrix.smul_apply, smul_eq_mul, mul_pow, Finset.mul_sum]
  rw [h, Real.sqrt_mul (sq_nonneg c), Real.sqrt_sq hc]

lemma projB2_colNorm_le_one {p q : ℕ} (x : Matrix (Fin p) (Fin q) ℝ)
    (j : Fin q) : colL2Norm (projB2 x) j ≤ 1 := by
  rw [projB2]
  by_cases h : npNorm x ≤ 1
  · rw [if_pos h]
    exact le_trans (colL2Norm_le_npNorm x j) h
  · rw [if_neg h]
    push_neg at h
    have hx : 0 < npNorm x := lt_trans one_pos h
    calc colL2Norm ((1 / npNorm x) • x) j
        ≤ npNorm ((1 / npNorm x) • x) := colL2Norm_le_npNorm _ j
      _ = (1 / npNorm x) * npNorm x := npNorm_smul _ (by positivity) x
      _ = 1 := by field_simp

/-- C10: for every `N ≥ 1` and `K ≥ 1`, iterating `indices(N, K)` to
exhaustion yields exactly `N*K` values — each row index `n ∈ 0..N-1`
repeated exactly `K` times, in increasing order — which equals the
reported `__len__`, and exhaustion resets the internal state to
`n = 0, k = 0`, so a second full iteration yields the same sequence. -/
theorem indices_iterator_correct (N K fuel : ℕ) (hN : 1 ≤ N) (hK : 1 ≤ K)
    (hfuel : N * K + 1 ≤ fuel) :
    (runIter (indicesInit N K) fuel).1 = expectedIndices N K ∧
    (runIter (indicesInit N K) fuel).1.length = indicesLen (indicesInit N K) ∧
    (runIter (indicesInit N K) fuel).2 = some (indicesInit N K) ∧
    ∀ s', (runIter (indicesInit N K) fuel).2 = some s' →
      runIter s' fuel = runIter (indicesInit N K) fuel := by
  have h := runIter_init_eq N K fuel hN hK hfuel
  refine ⟨by rw [h], ?_, by rw [h], ?_⟩
  · rw [h]
    simpa [indicesLen, indicesInit] using expectedIndices_length N K
  · intro s' hs'
    rw [h] at hs'
    obtain rfl : indicesInit N K = s' := by injection hs'
    rfl

theorem indices_iterator_correct_witness :
    1 ≤ 3 ∧ 1 ≤ 2 ∧ 3 * 2 + 1 ≤ 7 ∧
    ((runIter (indicesInit 3 2) 7).1 = expectedIndices 3 2 ∧
     (runIter (indicesInit 3 2) 7).1.length = indicesLen (indicesInit 3 2) ∧
     (runIter (indicesInit 3 2) 7).2 = some (indicesInit 3 2) ∧
     ∀ s', (runIter (indicesInit 3 2) 7).2 = some s' →
       runIter s' 7 = runIter (indicesInit 3 2) 7) :=
  ⟨by decide, by decide, by decide,
   indices_iterator_correct 3 2 7 (by decide) (by decide) (by decide)⟩

/-- C2: the graph notebook joins each of the `N = Ngenres*Nclips*Nframes*2`
samples to its `K` nearest neighbors — the `K+1` KNN results minus the
first column, the self-reference — yielding an `N × N` weight matrix
whose entry `(a, b)` sums the weights of the neighbors of `a` landing on
`b`, and whose diagonal is entirely zero. -/
theorem knn_weight_matrix (Ngenres Nclips Nframes K : ℕ) {α : Type}
    [AddCommMonoid α]
    (hN : 1 ≤ Ngenres * Nclips * Nframes * 2) (hK : 1 ≤ K)
    (knnidx : Fin (Ngenres * Nclips * Nframes * 2) → Fin (K + 1) →
      Fin (Ngenres * Nclips * Nframes * 2))
    (w : Fin (Ngenres * Nclips * Nframes * 2) → Fin K → α)
    (hself : ∀ a k, knnidx a k = a → k = 0) :
    (∀ a b, buildW (Ngenres * Nclips * Nframes * 2) K
        (fun n k => knnidx n k.succ) w a b
      = ∑ k : Fin K, if knnidx a k.succ = b then w a k else 0) ∧
    (∀ a, buildW (Ngenres * Nclips * Nframes * 2) K
        (fun n k => knnidx n k.succ) w a a = 0) := by
  constructor
  · intro a b
    exact buildW_apply _ K hN hK _ w a b
  · intro a
    rw [buildW_apply _ K hN hK _ w a a]
    refine Finset.sum_eq_zero fun k _ => ?_
    rw [if_neg]
    intro hcontra
    exact Fin.succ_ne_zero k (hself a k.succ hcontra)

theorem knn_weight_matrix_witness :
    1 ≤ 1 * 1 * 1 * 2 ∧ 1 ≤ 1 ∧
    (∀ a k, (![![0, 1], ![1, 0]] : Fin 2 → Fin 2 → Fin 2) a k = a → k = 0) ∧
    ((∀ a b, buildW (1 * 1 * 1 * 2) 1
        (fun n k => (![![0, 1], ![1, 0]] : Fin 2 → Fin 2 → Fin 2) n k.succ)
        (fun _ _ => (1 : ℚ)) a b
      = ∑ k : Fin 1,
          if (![![0, 1], ![1, 0]] : Fin 2 → Fin 2 → Fin 2) a k.succ = b
          then (1 : ℚ) else 0) ∧
    (∀ a, buildW (1 * 1 * 1 * 2) 1
        (fun n k => (![![0, 1], ![1, 0]] : Fin 2 → Fin 2 → Fin 2) n k.succ)
        (fun _ _ => (1 : ℚ)) a a = 0)) :=
  ⟨by decide, by decide, by decide,
   knn_weight_matrix 1 1 1 1 (by decide) (by decide)
     (![![0, 1], ![1, 0]]) (fun _ _ => (1 : ℚ)) (by decide)⟩

/-- C4: the symmetrization step yields the elementwise maximum of `W` and
`Wᵀ`; the result is symmetric, entries where `W` was already `≥ Wᵀ` are
unchanged, and a zero diagonal stays zero. -/
theorem symmetrize_is_max {α : Type} [LinearOrderedRing α] (N : ℕ)
    (W : Matrix (Fin N) (Fin N) α) :
    (∀ i j, symmetrize N W i j = max (W i j) (W j i)) ∧
    (symmetrize N W)ᵀ = symmetrize N W ∧
    (∀ i j, W j i ≤ W i j → symmetrize N W i j = W i j) ∧
    (∀ i, W i i = 0 → symmetrize N W i i = 0) := by
  have hmax : ∀ i j, symmetrize N W i j = max (W i j) (W j i) := by
    intro i j
    rw [symmetrize, biggerMask]
    by_cases h : W j i > W i j
    · simp [h, max_eq_right (le_of_lt h)]
    · simp [h, max_eq_left (not_lt.mp h)]
  refine ⟨hmax, ?_, ?_, ?_⟩
  · ext i j
    rw [Matrix.transpose_apply, hmax, hmax, max_comm]
  · intro i j h
    rw [hmax, max_eq_left h]
  · intro i h
    rw [hmax, h, max_self]

theorem symmetrize_is_max_witness :
    ((![![0, 3], ![2, 0]] : Matrix (Fin 2) (Fin 2) ℚ) 1 0 ≤
       (![![0, 3], ![2, 0]] : Matrix (Fin 2) (Fin 2) ℚ) 0 1 ∧
     symmetrize 2 (![![0, 3], ![2, 0]] : Matrix (Fin 2) (Fin 2) ℚ) 0 1 =
       (![![0, 3], ![2, 0]] : Matrix (Fin 2) (Fin 2) ℚ) 0 1) ∧
    ((![![0, 3], ![2, 0]] : Matrix (Fin 2) (Fin 2) ℚ) 0 0 = 0 ∧
     symmetrize 2 (![![0, 3], ![2, 0]] : Matrix (Fin 2) (Fin 2) ℚ) 0 0 = 0) :=
  ⟨⟨by decide,
    (symmetrize_is_max 2 (![![0, 3], ![2, 0]] : Matrix (Fin 2) (Fin 2) ℚ)).2.2.1
      0 1 (by decide)⟩,
   by decide,
   (symmetrize_is_max 2 (![![0, 3], ![2, 0]] : Matrix (Fin 2) (Fin 2) ℚ)).2.2.2
     0 (by decide)⟩

/-- C8: the post-search assertions imply the post-slice assertions: if
`knnidx.shape = (Ngenres*Nclips*Nframes*2, K+1)` and
`knnidx.shape = knndist.shape`, then dropping the first column leaves
`idx` of shape `(X.shape[0], K)` with `idx.shape = dist.shape`, for `X`
of `Ngenres*Nclips*Nframes*2` rows. -/
theorem knn_assert_consistency (Ngenres Nclips Nframes K Xrows : ℕ)
    (knnShape knndistShape : ℕ × ℕ)
    (hX : Xrows = Ngenres * Nclips * Nframes * 2)
    (h1 : knnShape = (Ngenres * Nclips * Nframes * 2, K + 1))
    (h2 : knnShape = knndistShape) :
    dropFirstColShape knnShape = (Xrows, K) ∧
    dropFirstColShape knnShape = dropFirstColShape knndistShape := by
  subst hX h1
  exact ⟨by simp [dropFirstColShape], by rw [h2]⟩

theorem knn_assert_consistency_witness :
    (40000 : ℕ) = 10 * 100 * 20 * 2 ∧
    ((40000, 11) : ℕ × ℕ) = (10 * 100 * 20 * 2, 10 + 1) ∧
    (dropFirstColShape (40000, 11) = (40000, 10) ∧
     dropFirstColShape (40000, 11) = dropFirstColShape (40000, 11)) :=
  ⟨by decide, by decide,
   knn_assert_consistency 10 100 20 10 40000 (40000, 11) (40000, 11)
     (by decide) (by decide) rfl⟩

/-- C9: the output cell removes a pre-existing `data/graph.hdf5`; when the
file does not exist the raised `OSError` is caught and ignored, and the
save step reaches the write in either case. -/
theorem output_removal_guarded (fs : List String) (p : String) :
    (p ∈ fs → removeGuarded fs p = fs.erase p) ∧
    (p ∉ fs → removeGuarded fs p = fs) ∧
    ∃ fs', saveCellFS fs p = Except.ok fs' := by
  refine ⟨?_, ?_, ⟨p :: removeGuarded fs p, rfl⟩⟩
  · intro h
    rw [removeGuarded, osRemove, if_pos h]
  · intro h
    rw [removeGuarded, osRemove, if_neg h]

theorem output_removal_guarded_witness :
    ("data/graph.hdf5" ∈ ["data/graph.hdf5", "data/audio.hdf5"] ∧
     removeGuarded ["data/graph.hdf5", "data/audio.hdf5"] "data/graph.hdf5" =
       ["data/graph.hdf5", "data/audio.hdf5"].erase "data/graph.hdf5") ∧
    ("data/graph.hdf5" ∉ (["data/audio.hdf5"] : List String) ∧
     removeGuarded ["data/audio.hdf5"] "data/graph.hdf5" = ["data/audio.hdf5"]) :=
  ⟨⟨by decide,
    (output_removal_guarded ["data/graph.hdf5", "data/audio.hdf5"]
      "data/graph.hdf5").1 (by decide)⟩,
   by decide,
   (output_removal_guarded ["data/audio.hdf5"] "data/graph.hdf5").2.1
     (by decide)⟩

/-- C6: the graph notebook dumps, for each matrix in `{W, L}`, the four
CSR components `data`, `indices`, `indptr`, `shape` as HDF5 datasets
named `<matrix>_<component>` in `data/graph.hdf5`, and stores the
hyper-parameters `K`, `dm` and `Csigma` as HDF5 file attributes. -/
theorem output_file_contents {α : Type} (W L : CSRData α) (K : ℕ)
    (dm : String) (Csigma : α) :
    saveGraph W L K dm Csigma =
      ([("K", AttrVal.int K), ("dm", AttrVal.str dm),
        ("Csigma", AttrVal.num Csigma)],
       [("W_data", H5Value.values W.data),
        ("W_indices", H5Value.indexes W.indices),
        ("W_indptr", H5Value.indexes W.indptr),
        ("W_shape", H5Value.indexes W.shape),
        ("L_data", H5Value.values L.data),
        ("L_indices", H5Value.indexes L.indices),
        ("L_indptr", H5Value.indexes L.indptr),
        ("L_shape", H5Value.indexes L.shape)]) := by
  rfl

/-- C7: the distance conversion computes `sqrt(dist)` when `dm` is
`'euclidean'`, `dist/2` when `dm` is `'cosine'`, and raises `ValueError`
for every other value of `dm`. -/
theorem distance_conversion (N K : ℕ) (dist : Matrix (Fin N) (Fin K) ℝ) :
    convertDist N K "euclidean" dist = .ok (fun i k => Real.sqrt (dist i k)) ∧
    convertDist N K "cosine" dist = .ok (fun i k => dist i k / 2) ∧
    ∀ dm, dm ≠ "euclidean" → dm ≠ "cosine" →
      convertDist N K dm dist = .error PyError.valueError := by
  refine ⟨rfl, rfl, ?_⟩
  intro dm h1 h2
  rw [convertDist, if_neg h1, if_neg h2]

theorem distance_conversion_witness :
    ("manhattan" ≠ "euclidean" ∧ "manhattan" ≠ "cosine") ∧
    convertDist 1 1 "manhattan" 0 = .error PyError.valueError :=
  ⟨⟨by decide, by decide⟩,
   (distance_conversion 1 1 0).2.2 "manhattan" (by decide) (by decide)⟩

/-- C1: for every symmetrized weight matrix `W` whose every vertex has
positive degree, the matrix `L = I - D*W*D` computed by the notebook is
the symmetric normalized graph Laplacian `I - D^{-1/2} W D^{-1/2}`, with
the degree of vertex `i` the `i`-th column sum of `W`. -/
theorem laplacian_normalized (N : ℕ) (W : Matrix (Fin N) (Fin N) ℝ)
    (hdeg : ∀ j, 0 < colSum N W j) :
    laplacianL N W = specNormalizedLaplacian N W := by
  ext i j
  have hi : Real.sqrt (colSum N W i) ≠ 0 :=
    ne_of_gt (Real.sqrt_pos.mpr (hdeg i))
  have hj : Real.sqrt (colSum N W j) ≠ 0 :=
    ne_of_gt (Real.sqrt_pos.mpr (hdeg j))
  rw [laplacianL, degInvSqrtMat]
  rw [Matrix.sub_apply, Matrix.one_apply, Matrix.mul_diagonal,
    Matrix.diagonal_mul, specNormalizedLaplacian]
  rw [invSqrtDeg, invSqrtDeg]
  congr 1
  field_simp

theorem laplacian_normalized_witness :
    (∀ j, 0 < colSum 2 (![![0, 1], ![1, 0]] : Matrix (Fin 2) (Fin 2) ℝ) j) ∧
    laplacianL 2 (![![0, 1], ![1, 0]] : Matrix (Fin 2) (Fin 2) ℝ) =
      specNormalizedLaplacian 2 (![![0, 1], ![1, 0]] : Matrix (Fin 2) (Fin 2) ℝ) := by
  have hdeg : ∀ j, 0 < colSum 2 (![![0, 1], ![1, 0]] : Matrix (Fin 2) (Fin 2) ℝ) j := by
    intro j
    fin_cases j <;> norm_num [colSum, Fin.sum_univ_two]
  exact ⟨hdeg, laplacian_normalized 2 _ hdeg⟩

/-- C5: the dictionary-learning notebook evaluates the identical
objective terms — the L1 norm of `Z` and the weighted L2 data term with
`lambda_ = l_d/2` — on the reference MATLAB solution loaded from
`data/xavier_ZD.mat` and on its own computed solution; and that data term
is `l_d/2 * ||D Z - X||_F^2`. -/
theorem objective_comparison {n m N : ℕ} {α : Type} [LinearOrderedField α]
    (X : Matrix (Fin n) (Fin N) α) :
    (∀ (Zs : Matrix (Fin m) (Fin N) α) (Ds : Matrix (Fin n) (Fin m) α),
      xavierSolutionEval Zs Ds X = ownSolutionEval Zs Ds X) ∧
    (∀ (Zs : Matrix (Fin m) (Fin N) α) (Ds : Matrix (Fin n) (Fin m) α),
      (xavierSolutionEval Zs Ds X).2.1
        = l_d / 2 * ∑ i, ∑ j, ((Ds * Zs - X) i j) ^ 2) := by
  refine ⟨fun Zs Ds => rfl, fun Zs Ds => ?_⟩
  show norm_l2_eval (l_d / 2) Zsᵀ Xᵀ Dsᵀ = _
  rw [norm_l2_eval, ← Matrix.transpose_mul, ← Matrix.transpose_sub]
  congr 1
  rw [Finset.sum_comm]
  simp only [Matrix.transpose_apply]

/-- C3: the dictionary-learning notebook runs `N_outer = 15` outer
iterations, each first solving for `Z` with `D` fixed, then for `D` (via
`D^T`) with the updated `Z` fixed; each inner forward-backward solve is
handed step `1/L` with `L = l_d * ||A^T A||` for its data term (`A = D`
resp. `A = Z^T`), and the dictionary constraint is a proximal projection
after which every atom (column of `D`) lies in the unit L2 ball. -/
theorem alternating_minimization {n m N : ℕ}
    (solveZ : ℝ → Matrix (Fin n) (Fin m) ℝ → Matrix (Fin n) (Fin N) ℝ →
      Matrix (Fin m) (Fin N) ℝ → Matrix (Fin m) (Fin N) ℝ)
    (solveD : ℝ → Matrix (Fin N) (Fin m) ℝ → Matrix (Fin N) (Fin n) ℝ →
      Matrix (Fin m) (Fin n) ℝ → Matrix (Fin m) (Fin n) ℝ)
    (X : Matrix (Fin n) (Fin N) ℝ)
    (Zinit : Matrix (Fin m) (Fin N) ℝ) (Dinit : Matrix (Fin n) (Fin m) ℝ) :
    dictionaryLearning solveZ solveD X Zinit Dinit
      = (outerStep solveZ solveD X)^[N_outer] (Zinit, Dinit) ∧
    N_outer = 15 ∧
    (∀ Z D, (outerStep solveZ solveD X (Z, D)).1
        = solveZ (1 / (l_d * npNorm (Dᵀ * D))) D X Z) ∧
    (∀ Z D, (outerStep solveZ solveD X (Z, D)).2
        = (solveD
            (1 / (l_d * npNorm ((outerStep solveZ solveD X (Z, D)).1 *
              ((outerStep solveZ solveD X (Z, D)).1)ᵀ)))
            ((outerStep solveZ solveD X (Z, D)).1)ᵀ Xᵀ Dᵀ)ᵀ) ∧
    (∀ Dt : Matrix (Fin m) (Fin n) ℝ, gdProx Dt = (projB2 Dtᵀ)ᵀ) ∧
    (∀ (Dt : Matrix (Fin m) (Fin n) ℝ) (j : Fin m),
      colL2Norm ((gdProx Dt)ᵀ) j ≤ 1) := by
  refine ⟨foldl_range_const _ N_outer _, rfl, fun Z D => rfl, fun Z D => rfl,
    fun Dt => rfl, fun Dt j => ?_⟩
  rw [gdProx, Matrix.transpose_transpose]
  exact projB2_colNorm_le_one Dtᵀ j

end Dlaudio
